import Mathlib

/-!
# Vitastor: blockstore facade, scatter/gather list and QEMU filename parser

A shallow embedding of src/blockstore.cpp (the blockstore_t facade), of
osd_op_buf_list_t in src/messenger.h and of vitastor_parse_filename in
src/qemu_driver.c, followed by the theorems about them.
-/

namespace Vitastor

/-! ## Public facade of the storage engine (src/blockstore.cpp) -/

/-- The object blockstore_t::impl points to, as the facade sees it: the public member
unstable_writes (std::unordered_map<object_id, uint64_t>, kept as an association
list) and the rest of the engine state. -/
structure blockstore_impl_t (ObjId σ : Type) where
  unstable_writes : List (ObjId × Nat)
  engine : σ
deriving DecidableEq, Repr

/-- The methods of blockstore_impl_t that the facade calls. Their bodies are not in
src/blockstore.cpp, so they are parameters. None of them is a const method: each
takes the engine state and returns the state it leaves. Op stands for the
pointer blockstore_op_t* that enqueue_op receives. -/
structure blockstore_impl_methods (Op ObjId σ : Type) where
  loop : blockstore_impl_t ObjId σ → blockstore_impl_t ObjId σ
  is_started : blockstore_impl_t ObjId σ → Bool × blockstore_impl_t ObjId σ
  is_stalled : blockstore_impl_t ObjId σ → Bool × blockstore_impl_t ObjId σ
  is_safe_to_stop : blockstore_impl_t ObjId σ → Bool × blockstore_impl_t ObjId σ
  enqueue_op : blockstore_impl_t ObjId σ → Op → Bool → blockstore_impl_t ObjId σ
  get_block_size : blockstore_impl_t ObjId σ → Nat × blockstore_impl_t ObjId σ
  get_block_count : blockstore_impl_t ObjId σ → Nat × blockstore_impl_t ObjId σ
  get_free_block_count : blockstore_impl_t ObjId σ → Nat × blockstore_impl_t ObjId σ
  get_disk_alignment : blockstore_impl_t ObjId σ → Nat × blockstore_impl_t ObjId σ

/-- blockstore_t: its only member is the pointer impl. -/
structure blockstore_t (ObjId σ : Type) where
  impl : blockstore_impl_t ObjId σ
deriving DecidableEq, Repr

/-- A C++ reference T& to an object of type A that lives inside a state S: the holder
can read the object and assign to it. -/
structure MutRef (S A : Type) where
  read : S → A
  write : S → A → S

section facade
variable {Op ObjId σ : Type}

def blockstore_t.loop (I : blockstore_impl_methods Op ObjId σ) (bs : blockstore_t ObjId σ) :
    blockstore_t ObjId σ :=
  { impl := I.loop bs.impl }

def blockstore_t.is_started (I : blockstore_impl_methods Op ObjId σ)
    (bs : blockstore_t ObjId σ) : Bool × blockstore_t ObjId σ :=
  ((I.is_started bs.impl).1, { impl := (I.is_started bs.impl).2 })

def blockstore_t.is_stalled (I : blockstore_impl_methods Op ObjId σ)
    (bs : blockstore_t ObjId σ) : Bool × blockstore_t ObjId σ :=
  ((I.is_stalled bs.impl).1, { impl := (I.is_stalled bs.impl).2 })

def blockstore_t.is_safe_to_stop (I : blockstore_impl_methods Op ObjId σ)
    (bs : blockstore_t ObjId σ) : Bool × blockstore_t ObjId σ :=
  ((I.is_safe_to_stop bs.impl).1, { impl := (I.is_safe_to_stop bs.impl).2 })

def blockstore_t.enqueue_op (I : blockstore_impl_methods Op ObjId σ)
    (bs : blockstore_t ObjId σ) (op : Op) : blockstore_t ObjId σ :=
  { impl := I.enqueue_op bs.impl op false }

def blockstore_t.enqueue_op_first (I : blockstore_impl_methods Op ObjId σ)
    (bs : blockstore_t ObjId σ) (op : Op) : blockstore_t ObjId σ :=
  { impl := I.enqueue_op bs.impl op true }

/-- The function returns impl->unstable_writes by (non-const) reference and touches
nothing: the result is the reference and the unchanged blockstore. -/
def blockstore_t.get_unstable_writes (bs : blockstore_t ObjId σ) :
    MutRef (blockstore_t ObjId σ) (List (ObjId × Nat)) × blockstore_t ObjId σ :=
  ({ read := fun b => b.impl.unstable_writes,
     write := fun b m => { impl := { b.impl with unstable_writes := m } } }, bs)

def blockstore_t.get_block_size (I : blockstore_impl_methods Op ObjId σ)
    (bs : blockstore_t ObjId σ) : Nat × blockstore_t ObjId σ :=
  ((I.get_block_size bs.impl).1, { impl := (I.get_block_size bs.impl).2 })

def blockstore_t.get_block_count (I : blockstore_impl_methods Op ObjId σ)
    (bs : blockstore_t ObjId σ) : Nat × blockstore_t ObjId σ :=
  ((I.get_block_count bs.impl).1, { impl := (I.get_block_count bs.impl).2 })

def blockstore_t.get_free_block_count (I : blockstore_impl_methods Op ObjId σ)
    (bs : blockstore_t ObjId σ) : Nat × blockstore_t ObjId σ :=
  ((I.get_free_block_count bs.impl).1, { impl := (I.get_free_block_count bs.impl).2 })

def blockstore_t.get_disk_alignment (I : blockstore_impl_methods Op ObjId σ)
    (bs : blockstore_t ObjId σ) : Nat × blockstore_t ObjId σ :=
  ((I.get_disk_alignment bs.impl).1, { impl := (I.get_disk_alignment bs.impl).2 })

/-- The query methods of an implementation leave the engine as they found it. -/
def queries_preserve_state (I : blockstore_impl_methods Op ObjId σ) : Prop :=
  ∀ s : blockstore_impl_t ObjId σ,
    (I.is_started s).2 = s ∧ (I.is_stalled s).2 = s ∧ (I.is_safe_to_stop s).2 = s
    ∧ (I.get_block_size s).2 = s ∧ (I.get_block_count s).2 = s
    ∧ (I.get_free_block_count s).2 = s ∧ (I.get_disk_alignment s).2 = s

end facade

/-- A call received by the implementation. -/
inductive ImplCall (Op : Type) where
  | loop
  | is_started
  | is_stalled
  | is_safe_to_stop
  | enqueue_op (op : Op) (first : Bool)
  | get_block_size
  | get_block_count
  | get_free_block_count
  | get_disk_alignment
deriving DecidableEq, Repr

/-- An implementation that only records the calls it receives, in order. -/
def recording_impl (Op ObjId : Type) : blockstore_impl_methods Op ObjId (List (ImplCall Op)) where
  loop := fun s => { s with engine := s.engine ++ [ImplCall.loop] }
  is_started := fun s => (false, { s with engine := s.engine ++ [ImplCall.is_started] })
  is_stalled := fun s => (false, { s with engine := s.engine ++ [ImplCall.is_stalled] })
  is_safe_to_stop := fun s => (false, { s with engine := s.engine ++ [ImplCall.is_safe_to_stop] })
  enqueue_op := fun s op first => { s with engine := s.engine ++ [ImplCall.enqueue_op op first] }
  get_block_size := fun s => (0, { s with engine := s.engine ++ [ImplCall.get_block_size] })
  get_block_count := fun s => (0, { s with engine := s.engine ++ [ImplCall.get_block_count] })
  get_free_block_count :=
    fun s => (0, { s with engine := s.engine ++ [ImplCall.get_free_block_count] })
  get_disk_alignment :=
    fun s => (0, { s with engine := s.engine ++ [ImplCall.get_disk_alignment] })

/-- Engine state of the sample implementation below. -/
structure sample_engine where
  started : Bool
  queue : List Nat
  block_size : Nat
  block_count : Nat
  free_blocks : Nat
  disk_alignment : Nat
deriving DecidableEq, Repr

/-- A sample implementation whose queries read the engine state: operations are
numbers, enqueue_op puts one at the head or at the tail of the queue. -/
def sample_impl : blockstore_impl_methods Nat (Nat × Nat) sample_engine where
  loop := fun s => s
  is_started := fun s => (s.engine.started, s)
  is_stalled := fun s => (false, s)
  is_safe_to_stop := fun s => (s.engine.queue.isEmpty, s)
  enqueue_op := fun s op first =>
    { s with engine := { s.engine with
        queue := if first then op :: s.engine.queue else s.engine.queue ++ [op] } }
  get_block_size := fun s => (s.engine.block_size, s)
  get_block_count := fun s => (s.engine.block_count, s)
  get_free_block_count := fun s => (s.engine.free_blocks, s)
  get_disk_alignment := fun s => (s.engine.disk_alignment, s)

/-- A sample blockstore: one unstable write, two queued operations. -/
def sample_blockstore : blockstore_t (Nat × Nat) sample_engine :=
  { impl := { unstable_writes := [((1, 0), 3)],
              engine := { started := true, queue := [7, 8], block_size := 131072,
                          block_count := 1024, free_blocks := 1000, disk_alignment := 4096 } } }

/-- struct iovec: a base address and a length. -/
structure iovec where
  iov_base : Nat
  iov_len : Nat
deriving DecidableEq, Repr

/-- Number of entries of the inline array. -/
def OSD_OP_INLINE_BUF_COUNT : Nat := 16

/-- Largest value of the C type int, the type of count, alloc and done. -/
def INT_MAX : Nat := 2147483647

/-- Addition of two non-negative int values; none on signed overflow. -/
def int_add (a b : Nat) : Option Nat :=
  if a + b ≤ INT_MAX then some (a + b) else none

/-- osd_op_buf_list_t. The pointer buf is none while it points to inline_buf and
some block once it points to a block obtained from malloc or realloc. -/
structure osd_op_buf_list_t where
  count : Nat
  alloc : Nat
  done : Nat
  buf : Option (List iovec)
  inline_buf : List iovec
deriving DecidableEq, Repr

/-- malloc(sizeof(iovec) * n): a fresh block of n entries of unspecified content. -/
def malloc (junk : iovec) (n : Nat) : List iovec := List.replicate n junk

/-- realloc(block, sizeof(iovec) * n): the old content up to the smaller of both
sizes, the rest unspecified. -/
def realloc (junk : iovec) (block : List iovec) (n : Nat) : List iovec :=
  block.take n ++ List.replicate (n - block.length) junk

/-- memcpy(dst, src, sizeof(iovec) * n); none when a block is shorter than n entries. -/
def memcpy (dst src : List iovec) (n : Nat) : Option (List iovec) :=
  if n ≤ src.length ∧ n ≤ dst.length then some (src.take n ++ dst.drop n) else none

/-- The default constructor: buf = inline_buf, whose content is unspecified. -/
def osd_op_buf_list_t.init (junk : iovec) : osd_op_buf_list_t :=
  { count := 0, alloc := OSD_OP_INLINE_BUF_COUNT, done := 0, buf := none,
    inline_buf := List.replicate OSD_OP_INLINE_BUF_COUNT junk }

/-- The array buf points to. -/
def osd_op_buf_list_t.storage (l : osd_op_buf_list_t) : List iovec :=
  match l.buf with
  | none => l.inline_buf
  | some block => block

/-- The entries buf[0..count-1]. -/
def osd_op_buf_list_t.entries (l : osd_op_buf_list_t) : List iovec :=
  l.storage.take l.count

/-- The assignment buf[count++] = v; none when the index is outside the array
buf points to, or when count overflows. -/
def osd_op_buf_list_t.store_next (l : osd_op_buf_list_t) (v : iovec) :
    Option osd_op_buf_list_t :=
  match int_add l.count 1 with
  | none => none
  | some c =>
    match l.buf with
    | none =>
      if l.count < l.inline_buf.length then
        some { l with count := c, inline_buf := l.inline_buf.set l.count v }
      else none
    | some block =>
      if l.count < block.length then
        some { l with count := c, buf := some (block.set l.count v) }
      else none

/-- The loop for (i = 0; i < other.count; i++) buf[count++] = other.buf[i] of append,
started at index i with n iterations left. -/
def append_loop (other : osd_op_buf_list_t) :
    Nat → Nat → osd_op_buf_list_t → Option osd_op_buf_list_t
  | 0, _, l => some l
  | n + 1, i, l =>
    match other.storage[i]? with
    | none => none
    | some v =>
      match l.store_next v with
      | none => none
      | some l1 => append_loop other n (i + 1) l1

/-- osd_op_buf_list_t::append(other): when count + other.count exceeds alloc the
storage moves to a block of ((count + other.count + 15) / 16) * 16 entries (malloc
and memcpy of the inline array, or realloc), then the entries of other are copied
one by one. none stands for undefined behaviour (overflow of an int, access outside
a block). -/
def osd_op_buf_list_t.append (junk : iovec) (l other : osd_op_buf_list_t) :
    Option osd_op_buf_list_t :=
  match int_add l.count other.count with
  | none => none
  | some total =>
    let grown : Option osd_op_buf_list_t :=
      if total > l.alloc then
        match int_add total 15 with
        | none => none
        | some t15 =>
          match l.buf with
          | none =>
            let old := l.alloc
            match memcpy (malloc junk (t15 / 16 * 16)) l.inline_buf old with
            | none => none
            | some block => some { l with alloc := t15 / 16 * 16, buf := some block }
          | some block =>
            some { l with alloc := t15 / 16 * 16,
                          buf := some (realloc junk block (t15 / 16 * 16)) }
      else some l
    match grown with
    | none => none
    | some l1 => append_loop other other.count 0 l1

/-- osd_op_buf_list_t::push_back(nbuf, len): when count >= alloc the storage moves
from the inline array to a block of (alloc / 16) * 16 + 1 entries, or the heap block
grows by 16 entries; then the entry is stored at buf[count++]. -/
def osd_op_buf_list_t.push_back (junk : iovec) (l : osd_op_buf_list_t) (nbuf len : Nat) :
    Option osd_op_buf_list_t :=
  let grown : Option osd_op_buf_list_t :=
    if l.count ≥ l.alloc then
      match l.buf with
      | none =>
        let old := l.alloc
        match int_add (l.alloc / 16 * 16) 1 with
        | none => none
        | some a =>
          match memcpy (malloc junk a) l.inline_buf old with
          | none => none
          | some block => some { l with alloc := a, buf := some block }
      | some block =>
        if l.alloc < 16 then
          some { l with alloc := 16, buf := some (realloc junk block 16) }
        else
          match int_add l.alloc 16 with
          | none => none
          | some a => some { l with alloc := a, buf := some (realloc junk block a) }
    else some l
  match grown with
  | none => none
  | some l1 => l1.store_next { iov_base := nbuf, iov_len := len }

/-- A call made on a list. -/
inductive BufCall where
  | push_back (nbuf len : Nat)
  | append (other : osd_op_buf_list_t)

/-- Runs the calls in order. -/
def run_calls (junk : iovec) : List BufCall → osd_op_buf_list_t → Option osd_op_buf_list_t
  | [], l => some l
  | BufCall.push_back nbuf len :: cs, l =>
    match l.push_back junk nbuf len with
    | none => none
    | some l1 => run_calls junk cs l1
  | BufCall.append other :: cs, l =>
    match l.append junk other with
    | none => none
    | some l1 => run_calls junk cs l1

/-- The growable sequence the calls describe: what a standard vector holds after them. -/
def seq_of_calls : List BufCall → List iovec
  | [] => []
  | BufCall.push_back nbuf len :: cs => { iov_base := nbuf, iov_len := len } :: seq_of_calls cs
  | BufCall.append other :: cs => other.entries ++ seq_of_calls cs

/-- The argument lists of the append calls are valid: their count is within the
array their buf points to. -/
def valid_args : List BufCall → Bool
  | [] => true
  | BufCall.push_back _ _ :: cs => valid_args cs
  | BufCall.append other :: cs => decide (other.count ≤ other.storage.length) && valid_args cs

/-- Representation invariant of a list. -/
structure buf_inv (l : osd_op_buf_list_t) : Prop where
  inline_len : l.inline_buf.length = 16
  size_eq : l.storage.length = l.alloc
  count_le : l.count ≤ l.alloc

/-- Sixteen push_back calls: they fill the inline array. -/
def sample_fill_calls : List BufCall :=
  (List.range 16).map (fun i => BufCall.push_back (4096 * i) 512)

/-- A list of two entries in its inline array. -/
def sample_other (junk : iovec) : osd_op_buf_list_t :=
  { count := 2, alloc := 16, done := 0, buf := none,
    inline_buf := [{ iov_base := 100, iov_len := 8 }, { iov_base := 200, iov_len := 8 }]
      ++ List.replicate 14 junk }

/-- Calls that follow the sixteen: the first promotes the storage to the heap, the
others grow it again. -/
def sample_grow_calls (junk : iovec) : List BufCall :=
  [BufCall.push_back 70000 512, BufCall.append (sample_other junk),
   BufCall.push_back 80000 512, BufCall.append (sample_other junk)]

/-! ## QEMU block driver: filename parsing (src/qemu_driver.c) -/

/-- C strings are modelled as the list of their characters up to the terminating NUL. -/
abbrev CStr := List Char

/-- Value stored in a QDict: qdict_put_int stores a signed 64-bit QNum,
qdict_put_str stores a QString. -/
inductive QObject where
  | qnum (value : Int)
  | qstring (value : CStr)
deriving DecidableEq, Repr

/-- QDict as an association list with unique keys. -/
abbrev QDict := List (CStr × QObject)

/-- qdict_get: the object stored under the key, if any. -/
def qdict_get (d : QDict) (key : CStr) : Option QObject :=
  match d with
  | [] => none
  | (k, v) :: rest => if k = key then some v else qdict_get rest key

/-- qdict_put: replaces the value of an existing key, otherwise adds the entry. -/
def qdict_put (d : QDict) (key : CStr) (v : QObject) : QDict :=
  match d with
  | [] => [(key, v)]
  | (k, w) :: rest => if k = key then (k, v) :: rest else (k, w) :: qdict_put rest key v

/-- Conversion of an unsigned long long to int64_t (two's complement). -/
def to_int64 (n : Nat) : Int :=
  if n % 2 ^ 64 < 2 ^ 63 then ((n % 2 ^ 64 : Nat) : Int) else ((n % 2 ^ 64 : Nat) : Int) - 2 ^ 64

/-- qdict_put_int(dict, key, value): the value is converted to int64_t. -/
def qdict_put_int (d : QDict) (key : CStr) (num_val : Nat) : QDict :=
  qdict_put d key (QObject.qnum (to_int64 num_val))

/-- qdict_put_str(dict, key, value). -/
def qdict_put_str (d : QDict) (key : CStr) (value : CStr) : QDict :=
  qdict_put d key (QObject.qstring value)

/-- qdict_get_try_int: the stored integer, or def_value when the key is absent
or does not hold an integer. -/
def qdict_get_try_int (d : QDict) (key : CStr) (def_value : Int) : Int :=
  match qdict_get d key with
  | some (QObject.qnum i) => i
  | _ => def_value

/-- qdict_get_str(dict, key) is qstring_get_str(qobject_to(QString, qdict_get(dict,
key))): it assumes that the key exists and holds a QString, and returns the stored
(non-NULL) string. For an absent key, or one that holds no string, it reads through
a NULL QString: that is the none result here. The variant that returns NULL for an
absent key is qdict_get_try_str, which vitastor_file_open uses. -/
def qdict_get_str (d : QDict) (key : CStr) : Option CStr :=
  match qdict_get d key with
  | some (QObject.qstring s) => some s
  | _ => none

/-- How a call can end without returning. -/
inductive Fault where
  | assertion   -- error_setg on an error slot that is already set
  | null_deref  -- qdict_get_str on a key that is not in the dictionary
  | fuel        -- the loop bound of the model was exhausted (never reached, see parse_filename_no_fuel_fault)
deriving DecidableEq, Repr

/-- Outcome of a call: a fault, or a normal return with the final state. -/
inductive Outcome (α : Type) where
  | fault (f : Fault)
  | ret (a : α)
deriving DecidableEq, Repr

/-- error_setg(errp, msg): errp points to an error slot; setting an error in a slot
that already holds one fails the assertion in error_setv. -/
def error_setg (errp : Option String) (msg : String) : Outcome (Option String) :=
  match errp with
  | none => Outcome.ret (some msg)
  | some _ => Outcome.fault Fault.assertion

/-- strstart(str, val, &ptr): when str starts with val, the rest of str. -/
def strstart (str val : CStr) : Option CStr :=
  match val, str with
  | [], s => some s
  | _ :: _, [] => none
  | v :: vs, c :: cs => if c = v then strstart cs vs else none

/-- qemu_rbd_next_tok(src, delim, &p): the token up to the first unescaped delim
and the rest after it (none when no delimiter was found: p = NULL). -/
def qemu_rbd_next_tok (delim : Char) : CStr → CStr × Option CStr
  | [] => ([], none)
  | [c] => if c = delim then ([], some []) else ([c], none)
  | c :: d :: rest =>
    if c = delim then ([], some (d :: rest))
    else if c = '\\' then
      let r := qemu_rbd_next_tok delim rest
      (c :: d :: r.1, r.2)
    else
      let r := qemu_rbd_next_tok delim (d :: rest)
      (c :: r.1, r.2)

/-- qemu_rbd_unescape(src): drops every backslash that is followed by a character,
keeping that character. -/
def qemu_rbd_unescape : CStr → CStr
  | [] => []
  | [c] => [c]
  | c :: d :: rest =>
    if c = '\\' then d :: qemu_rbd_unescape rest
    else c :: qemu_rbd_unescape (d :: rest)

/-- isspace in the C locale. -/
def qemu_isspace (c : Char) : Bool :=
  c = ' ' || c = '\t' || c = '\n' || c = '\x0b' || c = '\x0c' || c = '\r'

/-- Value of a digit character (as strtoull reads it), if any. -/
def digit_value (c : Char) : Option Nat :=
  if '0' ≤ c ∧ c ≤ '9' then some (c.toNat - '0'.toNat)
  else if 'a' ≤ c ∧ c ≤ 'z' then some (c.toNat - 'a'.toNat + 10)
  else if 'A' ≤ c ∧ c ≤ 'Z' then some (c.toNat - 'A'.toNat + 10)
  else none

/-- Reads a string made only of digits of the base, most significant first. -/
def read_digits (base : Nat) : Nat → CStr → Option Nat
  | acc, [] => some acc
  | acc, c :: cs =>
    match digit_value c with
    | some v => if v < base then read_digits base (acc * base + v) cs else none
    | none => none

/-- parse_uint_full(s, &value, 0) of qemu/cutils: some v when it returns 0 with
*value = v, none when it returns an error (empty or malformed number, trailing
characters, a minus sign, or a value above ULLONG_MAX). Base 0: a 0x or 0X prefix
reads hexadecimal, a leading 0 octal, anything else decimal. -/
def parse_uint_full (s : CStr) : Option Nat :=
  match s.dropWhile qemu_isspace with
  | '-' :: _ => none
  | t =>
    let u := match t with
      | '+' :: r => r
      | r => r
    let bd : Nat × CStr := match u with
      | '0' :: 'x' :: r => (16, r)
      | '0' :: 'X' :: r => (16, r)
      | '0' :: r => (8, '0' :: r)
      | r => (10, r)
    match bd.2 with
    | [] => none
    | ds =>
      match read_digits bd.1 0 ds with
      | some v => if v < 2 ^ 64 then some v else none
      | none => none

/-- The key names and the filename scheme used by the parser. -/
def k_inode : CStr := ['i', 'n', 'o', 'd', 'e']

def k_pool : CStr := ['p', 'o', 'o', 'l']

def k_size : CStr := ['s', 'i', 'z', 'e']

def k_etcd_host : CStr := ['e', 't', 'c', 'd', '_', 'h', 'o', 's', 't']

def vitastor_scheme : CStr := ['v', 'i', 't', 'a', 's', 't', 'o', 'r', ':']

/-- State of a call of vitastor_parse_filename: the options dictionary and the
error slot behind errp. -/
structure ParseState where
  options : QDict
  errp : Option String
deriving DecidableEq, Repr

/-- The while (p) loop of vitastor_parse_filename; p = none is the NULL pointer.
The Bool of the result tells whether the loop was left by goto out. Each
iteration shortens p, the first argument bounds the number of iterations. -/
def parse_pairs : Nat → Option CStr → ParseState → Outcome (ParseState × Bool)
  | 0, _, _ => Outcome.fault Fault.fuel
  | _ + 1, none, st => Outcome.ret (st, false)
  | fuel + 1, some s, st =>
    let tok := qemu_rbd_next_tok '=' s
    match tok.2 with
    | none =>
      match error_setg st.errp ("conf option " ++ String.mk tok.1 ++ " has no value") with
      | Outcome.fault f => Outcome.fault f
      | Outcome.ret e => Outcome.ret ({ st with errp := e }, false)
    | some p =>
      let name := qemu_rbd_unescape tok.1
      let vtok := qemu_rbd_next_tok ':' p
      let value := qemu_rbd_unescape vtok.1
      if name = k_inode ∨ name = k_pool ∨ name = k_size then
        match parse_uint_full value with
        | none =>
          match error_setg st.errp
              ("Illegal " ++ String.mk name ++ ": " ++ String.mk value) with
          | Outcome.fault f => Outcome.fault f
          | Outcome.ret e => Outcome.ret ({ st with errp := e }, true)
        | some num_val =>
          parse_pairs fuel vtok.2 { st with options := qdict_put_int st.options name num_val }
      else
        parse_pairs fuel vtok.2 { st with options := qdict_put_str st.options name value }

/-- The checks of the required options after the loop (lines 115-135). The macro
POOL_ID_BITS is not defined in the sources and is a parameter (between 1 and 64 for
the shift to be defined). The shift is the arithmetic shift of the int64_t that
qdict_get_try_int returns. -/
def check_required (POOL_ID_BITS : Nat) (st : ParseState) : Outcome ParseState :=
  if qdict_get_try_int st.options k_inode 0 = 0 then
    match error_setg st.errp "inode is missing" with
    | Outcome.fault f => Outcome.fault f
    | Outcome.ret e => Outcome.ret { st with errp := e }
  else if qdict_get_try_int st.options k_inode 0 >>> (64 - POOL_ID_BITS) = 0 ∧
      qdict_get_try_int st.options k_pool 0 = 0 then
    match error_setg st.errp "pool number is missing" with
    | Outcome.fault f => Outcome.fault f
    | Outcome.ret e => Outcome.ret { st with errp := e }
  else if qdict_get_try_int st.options k_size 0 = 0 then
    match error_setg st.errp "size is missing" with
    | Outcome.fault f => Outcome.fault f
    | Outcome.ret e => Outcome.ret { st with errp := e }
  else
    match qdict_get_str st.options k_etcd_host with
    | none => Outcome.fault Fault.null_deref
    | some _ => Outcome.ret st

/-- vitastor_parse_filename(filename, options, errp): errp is the content of the error
slot (none: no error set), the result is the final dictionary and error slot. -/
def vitastor_parse_filename (POOL_ID_BITS : Nat) (filename : CStr) (options : QDict)
    (errp : Option String) : Outcome ParseState :=
  match strstart filename vitastor_scheme with
  | none =>
    match error_setg errp "File name must start with 'vitastor:'" with
    | Outcome.fault f => Outcome.fault f
    | Outcome.ret e => Outcome.ret { options := options, errp := e }
  | some start =>
    match parse_pairs (start.length + 1) (some start) { options := options, errp := errp } with
    | Outcome.fault f => Outcome.fault f
    | Outcome.ret (st, true) => Outcome.ret st
    | Outcome.ret (st, false) => check_required POOL_ID_BITS st

/-- A raw (escaped) token that can stand before the delimiter: it holds no unescaped
delimiter and does not end in a backslash that would escape the delimiter. -/
def closed_tok (delim : Char) : CStr → Bool
  | [] => true
  | [c] => decide (c ≠ delim) && decide (c ≠ '\\')
  | c :: d :: rest =>
    decide (c ≠ delim) && (if c = '\\' then closed_tok delim rest else closed_tok delim (d :: rest))

/-- A raw token that can end the string: it holds no unescaped delimiter. -/
def open_tok (delim : Char) : CStr → Bool
  | [] => true
  | [c] => decide (c ≠ delim)
  | c :: d :: rest =>
    decide (c ≠ delim) && (if c = '\\' then open_tok delim rest else open_tok delim (d :: rest))

/-- The text k1=v1:...:kn=vn of a list of raw pairs. -/
def render_pairs : List (CStr × CStr) → CStr
  | [] => []
  | [(k, v)] => k ++ '=' :: v
  | (k, v) :: p :: ps => k ++ '=' :: (v ++ ':' :: render_pairs (p :: ps))

/-- The raw pairs are the tokens of their text: n ≥ 1 pairs, no name holds an
unescaped '=', no value an unescaped ':'. -/
def wf_pairs : List (CStr × CStr) → Bool
  | [] => false
  | [(k, v)] => closed_tok '=' k && open_tok ':' v
  | (k, v) :: p :: ps => closed_tok '=' k && closed_tok ':' v && wf_pairs (p :: ps)

/-- What a pair is stored as, following the grammar: an integer for the keys inode,
pool and size (none when the value is not a legal unsigned integer), a string
otherwise. -/
def pair_object (name value : CStr) : Option QObject :=
  if name = k_inode ∨ name = k_pool ∨ name = k_size then
    (parse_uint_full value).map (fun n => QObject.qnum (to_int64 n))
  else some (QObject.qstring value)

/-- Every inode, pool and size value is a legal unsigned integer. -/
def legal_pairs (ps : List (CStr × CStr)) : Bool :=
  ps.all (fun p => (pair_object (qemu_rbd_unescape p.1) (qemu_rbd_unescape p.2)).isSome)

/-- The dictionary the grammar describes: each pair put under its unescaped key, in order. -/
def put_pairs (d : QDict) : List (CStr × CStr) → QDict
  | [] => d
  | (k, v) :: ps =>
    match pair_object (qemu_rbd_unescape k) (qemu_rbd_unescape v) with
    | some o => put_pairs (qdict_put d (qemu_rbd_unescape k) o) ps
    | none => put_pairs d ps

/-- Number of loop iterations a rest string can still take, plus one. -/
def rest_measure : Option CStr → Nat
  | none => 0
  | some s => s.length + 1

/-- The pairs of the documented example vitastor:etcd_host=127.0.0.1:inode=1:pool=1. -/
def documented_example_pairs : List (CStr × CStr) :=
  [("etcd_host".toList, "127.0.0.1".toList), ("inode".toList, "1".toList),
   ("pool".toList, "1".toList)]

/-- The pairs of vitastor:inode=1:pool=1:size=1. -/
def no_host_pairs : List (CStr × CStr) :=
  [("inode".toList, "1".toList), ("pool".toList, "1".toList), ("size".toList, "1".toList)]

/-- C1: enqueue_op hands the operation to the implementation's enqueue_op with first =
false, enqueue_op_first hands the same operation over with first = true; on an
implementation that records its calls, each of them adds exactly one call, with the
operation it was given and its own flag, so only enqueue_op_first asks for the head
of the queue. -/
theorem enqueue_op_forwards {Op ObjId σ : Type} (I : blockstore_impl_methods Op ObjId σ)
    (bs : blockstore_t ObjId σ) (rbs : blockstore_t ObjId (List (ImplCall Op))) (op : Op) :
    bs.enqueue_op I op = { impl := I.enqueue_op bs.impl op false }
    ∧ bs.enqueue_op_first I op = { impl := I.enqueue_op bs.impl op true }
    ∧ (rbs.enqueue_op (recording_impl Op ObjId) op).impl.engine
        = rbs.impl.engine ++ [ImplCall.enqueue_op op false]
    ∧ (rbs.enqueue_op_first (recording_impl Op ObjId) op).impl.engine
        = rbs.impl.engine ++ [ImplCall.enqueue_op op true]
    ∧ (rbs.enqueue_op (recording_impl Op ObjId) op).impl.unstable_writes
        = rbs.impl.unstable_writes
    ∧ (rbs.enqueue_op_first (recording_impl Op ObjId) op).impl.unstable_writes
        = rbs.impl.unstable_writes :=
  ⟨rfl, rfl, rfl, rfl, rfl, rfl⟩

/-- C2, as stated, fails: the caller can change the engine's unstable_writes mapping
through the reference get_unstable_writes returns. -/
theorem unstable_writes_assignable_through_reference :
    ((blockstore_t.get_unstable_writes sample_blockstore).1.write sample_blockstore
        [((2, 0), 9)]).impl.unstable_writes
      ≠ sample_blockstore.impl.unstable_writes := by
  decide

/-- C2, amended: get_unstable_writes changes no engine state; reading through the
reference it returns gives the engine's current mapping; an assignment through the
reference replaces the engine's unstable_writes mapping and nothing else. -/
theorem get_unstable_writes_reference {ObjId σ : Type} (bs : blockstore_t ObjId σ) :
    bs.get_unstable_writes.2 = bs
    ∧ (∀ b : blockstore_t ObjId σ, bs.get_unstable_writes.1.read b = b.impl.unstable_writes)
    ∧ (∀ (b : blockstore_t ObjId σ) (m : List (ObjId × Nat)),
        (bs.get_unstable_writes.1.write b m).impl.unstable_writes = m
        ∧ (bs.get_unstable_writes.1.write b m).impl.engine = b.impl.engine) :=
  ⟨rfl, fun _ => rfl, fun _ _ => ⟨rfl, rfl⟩⟩

/-- Corollary for implementations whose query methods leave the engine unchanged:
there every query of the facade leaves the blockstore unchanged. -/
theorem facade_queries_pure {Op ObjId σ : Type} (I : blockstore_impl_methods Op ObjId σ)
    (hq : queries_preserve_state I) (bs : blockstore_t ObjId σ) :
    bs.is_started I = ((I.is_started bs.impl).1, bs)
    ∧ bs.is_stalled I = ((I.is_stalled bs.impl).1, bs)
    ∧ bs.is_safe_to_stop I = ((I.is_safe_to_stop bs.impl).1, bs)
    ∧ bs.get_block_size I = ((I.get_block_size bs.impl).1, bs)
    ∧ bs.get_block_count I = ((I.get_block_count bs.impl).1, bs)
    ∧ bs.get_free_block_count I = ((I.get_free_block_count bs.impl).1, bs)
    ∧ bs.get_disk_alignment I = ((I.get_disk_alignment bs.impl).1, bs) := by
  obtain ⟨h1, h2, h3, h4, h5, h6, h7⟩ := hq bs.impl
  simp only [blockstore_t.is_started, blockstore_t.is_stalled, blockstore_t.is_safe_to_stop,
    blockstore_t.get_block_size, blockstore_t.get_block_count,
    blockstore_t.get_free_block_count, blockstore_t.get_disk_alignment,
    h1, h2, h3, h4, h5, h6, h7, and_self]

/-- The corollary on the sample implementation and blockstore. -/
theorem facade_queries_pure_sample :
    queries_preserve_state sample_impl
    ∧ sample_blockstore.is_started sample_impl = (true, sample_blockstore)
    ∧ sample_blockstore.is_stalled sample_impl = (false, sample_blockstore)
    ∧ sample_blockstore.is_safe_to_stop sample_impl = (false, sample_blockstore)
    ∧ sample_blockstore.get_block_size sample_impl = (131072, sample_blockstore)
    ∧ sample_blockstore.get_block_count sample_impl = (1024, sample_blockstore)
    ∧ sample_blockstore.get_free_block_count sample_impl = (1000, sample_blockstore)
    ∧ sample_blockstore.get_disk_alignment sample_impl = (4096, sample_blockstore) :=
  ⟨fun _ => ⟨rfl, rfl, rfl, rfl, rfl, rfl, rfl⟩,
   facade_queries_pure sample_impl (fun _ => ⟨rfl, rfl, rfl, rfl, rfl, rfl, rfl⟩)
     sample_blockstore⟩

/-! ## Theorems about osd_op_buf_list_t -/

theorem buf_inv_init (junk : iovec) : buf_inv (osd_op_buf_list_t.init junk) := by
  constructor <;> simp [osd_op_buf_list_t.init, osd_op_buf_list_t.storage, OSD_OP_INLINE_BUF_COUNT]

theorem take_succ_set {α : Type} (xs : List α) (n : Nat) (v : α) (h : n < xs.length) :
    (xs.set n v).take (n + 1) = xs.take n ++ [v] := by
  induction xs generalizing n with
  | nil => simp at h
  | cons x xs ih =>
    cases n with
    | zero => simp
    | succ n =>
      simp only [List.set_cons_succ, List.take_succ_cons, List.cons_append, List.cons.injEq,
        true_and]
      exact ih n (by simpa using h)

theorem store_next_spec (l : osd_op_buf_list_t) (v : iovec) (hinv : buf_inv l)
    (hroom : l.count < l.alloc) (hmax : l.count + 1 ≤ INT_MAX) :
    ∃ l1, l.store_next v = some l1 ∧ buf_inv l1 ∧ l1.entries = l.entries ++ [v]
      ∧ l1.count = l.count + 1 ∧ l1.alloc = l.alloc := by
  obtain ⟨h1, h2, h3⟩ := hinv
  cases hb : l.buf with
  | none =>
    simp only [osd_op_buf_list_t.storage, hb] at h2
    have hlt : l.count < l.inline_buf.length := by omega
    refine ⟨{ l with count := l.count + 1, inline_buf := l.inline_buf.set l.count v }, ?_, ?_, ?_, rfl, rfl⟩
    · simp [osd_op_buf_list_t.store_next, int_add, hmax, hb, hlt]
    · constructor
      · simpa using h1
      · simpa [osd_op_buf_list_t.storage, hb] using h2
      · show l.count + 1 ≤ l.alloc
        omega
    · simp only [osd_op_buf_list_t.entries, osd_op_buf_list_t.storage, hb]
      exact take_succ_set _ _ _ hlt
  | some block =>
    simp only [osd_op_buf_list_t.storage, hb] at h2
    have hlt : l.count < block.length := by omega
    refine ⟨{ l with count := l.count + 1, buf := some (block.set l.count v) }, ?_, ?_, ?_, rfl, rfl⟩
    · simp [osd_op_buf_list_t.store_next, int_add, hmax, hb, hlt]
    · constructor
      · exact h1
      · simpa [osd_op_buf_list_t.storage] using h2
      · show l.count + 1 ≤ l.alloc
        omega
    · simp only [osd_op_buf_list_t.entries, osd_op_buf_list_t.storage, hb]
      exact take_succ_set _ _ _ hlt

theorem append_loop_spec (other : osd_op_buf_list_t) (n : Nat) :
    ∀ (i : Nat) (l : osd_op_buf_list_t), buf_inv l → l.count + n ≤ l.alloc →
      l.count + n ≤ INT_MAX → i + n ≤ other.storage.length →
      ∃ l1, append_loop other n i l = some l1 ∧ buf_inv l1
        ∧ l1.entries = l.entries ++ (other.storage.drop i).take n
        ∧ l1.count = l.count + n ∧ l1.alloc = l.alloc := by
  induction n with
  | zero =>
    intro i l hinv _ _ _
    exact ⟨l, rfl, hinv, by simp, rfl, rfl⟩
  | succ n ih =>
    intro i l hinv hroom hmax hsrc
    have hi : i < other.storage.length := by omega
    obtain ⟨l1, hs, hinv1, hent1, hc1, ha1⟩ :=
      store_next_spec l (other.storage[i]) hinv (by omega) (by omega)
    obtain ⟨l2, hl2, hinv2, hent2, hc2, ha2⟩ :=
      ih (i + 1) l1 hinv1 (by omega) (by omega) (by omega)
    refine ⟨l2, ?_, hinv2, ?_, by omega, by omega⟩
    · simp only [append_loop, List.getElem?_eq_getElem hi, hs, hl2]
    · rw [hent2, hent1, List.append_assoc]
      congr 1
      rw [List.drop_eq_getElem_cons hi, List.take_succ_cons]
      rfl

theorem push_back_spec (junk : iovec) (l : osd_op_buf_list_t) (nbuf len : Nat)
    (hinv : buf_inv l) (hmax : l.count + 16 ≤ INT_MAX) :
    ∃ l1, l.push_back junk nbuf len = some l1 ∧ buf_inv l1
      ∧ l1.entries = l.entries ++ [{ iov_base := nbuf, iov_len := len }]
      ∧ l1.count = l.count + 1 := by
  obtain ⟨h1, h2, h3⟩ := hinv
  by_cases hfull : l.count ≥ l.alloc
  · have hca : l.count = l.alloc := by omega
    cases hb : l.buf with
    | none =>
      simp only [osd_op_buf_list_t.storage, hb] at h2
      have ha : l.alloc = 16 := by omega
      let l0 : osd_op_buf_list_t :=
        { l with alloc := 17, buf := some (l.inline_buf.take 16 ++ (malloc junk 17).drop 16) }
      have hinv0 : buf_inv l0 := by
        constructor
        · exact h1
        · simp [l0, osd_op_buf_list_t.storage, malloc, h1]
        · show l.count ≤ 17
          omega
      obtain ⟨l1, hs, hinv1, hent1, hc1, _⟩ :=
        store_next_spec l0 { iov_base := nbuf, iov_len := len } hinv0
          (by show l.count < 17; omega) (by show l.count + 1 ≤ INT_MAX; omega)
      refine ⟨l1, ?_, hinv1, ?_, hc1⟩
      · have h16 : 16 ≤ l.count := by omega
        simp only [osd_op_buf_list_t.push_back, hfull, hb, ha, int_add, memcpy, malloc, h1]
        simpa [INT_MAX, l0, malloc, ha, h16] using hs
      · rw [hent1]
        congr 1
        simp only [osd_op_buf_list_t.entries, osd_op_buf_list_t.storage, hb, l0]
        rw [List.take_append_of_le_length (by simp [h1]; omega)]
        rw [List.take_take]
        congr 1
        omega
    | some block =>
      simp only [osd_op_buf_list_t.storage, hb] at h2
      by_cases hsmall : l.alloc < 16
      · let l0 : osd_op_buf_list_t := { l with alloc := 16, buf := some (realloc junk block 16) }
        have hinv0 : buf_inv l0 := by
          constructor
          · exact h1
          · simp only [l0, osd_op_buf_list_t.storage, realloc, List.length_append,
              List.length_take, List.length_replicate]
            omega
          · show l.count ≤ 16
            omega
        obtain ⟨l1, hs, hinv1, hent1, hc1, _⟩ :=
          store_next_spec l0 { iov_base := nbuf, iov_len := len } hinv0
            (by show l.count < 16; omega) (by show l.count + 1 ≤ INT_MAX; omega)
        refine ⟨l1, ?_, hinv1, ?_, hc1⟩
        · simp only [osd_op_buf_list_t.push_back, hfull, hb, hsmall]
          simpa [l0] using hs
        · rw [hent1]
          congr 1
          simp only [osd_op_buf_list_t.entries, osd_op_buf_list_t.storage, hb, l0, realloc]
          rw [List.take_append_of_le_length (by simp; omega)]
          rw [List.take_take]
          congr 1
          omega
      · let l0 : osd_op_buf_list_t :=
          { l with alloc := l.alloc + 16, buf := some (realloc junk block (l.alloc + 16)) }
        have hinv0 : buf_inv l0 := by
          constructor
          · exact h1
          · simp only [l0, osd_op_buf_list_t.storage, realloc, List.length_append,
              List.length_take, List.length_replicate]
            omega
          · show l.count ≤ l.alloc + 16
            omega
        obtain ⟨l1, hs, hinv1, hent1, hc1, _⟩ :=
          store_next_spec l0 { iov_base := nbuf, iov_len := len } hinv0
            (by show l.count < l.alloc + 16; omega) (by show l.count + 1 ≤ INT_MAX; omega)
        have hadd : l.alloc + 16 ≤ INT_MAX := by omega
        refine ⟨l1, ?_, hinv1, ?_, hc1⟩
        · simp only [osd_op_buf_list_t.push_back, hfull, hb, hsmall, int_add, hadd]
          simpa [l0] using hs
        · rw [hent1]
          congr 1
          simp only [osd_op_buf_list_t.entries, osd_op_buf_list_t.storage, hb, l0, realloc]
          rw [List.take_append_of_le_length (by simp; omega)]
          rw [List.take_take]
          congr 1
          omega
  · obtain ⟨l1, hs, hinv1, hent1, hc1, _⟩ :=
      store_next_spec l { iov_base := nbuf, iov_len := len } ⟨h1, h2, h3⟩
        (by omega) (by omega)
    refine ⟨l1, ?_, hinv1, hent1, hc1⟩
    simp only [osd_op_buf_list_t.push_back, hfull]
    simpa using hs

theorem append_spec (junk : iovec) (l other : osd_op_buf_list_t)
    (hinv : buf_inv l) (hother : other.count ≤ other.storage.length)
    (hmax : l.count + other.count + 15 ≤ INT_MAX) :
    ∃ l1, l.append junk other = some l1 ∧ buf_inv l1
      ∧ l1.entries = l.entries ++ other.entries
      ∧ l1.count = l.count + other.count := by
  obtain ⟨h1, h2, h3⟩ := hinv
  have hsum : l.count + other.count ≤ INT_MAX := by omega
  have hround : l.count + other.count ≤ (l.count + other.count + 15) / 16 * 16 := by omega
  have hfin : ∀ l0 : osd_op_buf_list_t, buf_inv l0 → l0.count = l.count →
      l0.entries = l.entries → l.count + other.count ≤ l0.alloc →
      ∃ l1, append_loop other other.count 0 l0 = some l1 ∧ buf_inv l1
        ∧ l1.entries = l.entries ++ other.entries
        ∧ l1.count = l.count + other.count := by
    intro l0 hinv0 hc0 he0 ha0
    obtain ⟨l1, hl, hinv1, hent1, hc1, _⟩ :=
      append_loop_spec other other.count 0 l0 hinv0 (by omega) (by omega) (by omega)
    refine ⟨l1, hl, hinv1, ?_, by omega⟩
    rw [hent1, he0]
    simp [osd_op_buf_list_t.entries]
  by_cases hgrow : l.count + other.count > l.alloc
  · cases hb : l.buf with
    | none =>
      simp only [osd_op_buf_list_t.storage, hb] at h2
      have ha : l.alloc = 16 := by omega
      let a := (l.count + other.count + 15) / 16 * 16
      let l0 : osd_op_buf_list_t :=
        { l with alloc := a, buf := some (l.inline_buf.take 16 ++ (malloc junk a).drop 16) }
      have ha16 : 16 ≤ a := by show 16 ≤ (l.count + other.count + 15) / 16 * 16; omega
      have hinv0 : buf_inv l0 := by
        constructor
        · exact h1
        · simp only [l0, osd_op_buf_list_t.storage, malloc, List.length_append,
            List.length_take, List.length_drop, List.length_replicate, h1]
          omega
        · show l.count ≤ a
          omega
      obtain ⟨l1, hl, hinv1, hent1, hc1⟩ := hfin l0 hinv0 rfl (by
        simp only [osd_op_buf_list_t.entries, osd_op_buf_list_t.storage, hb, l0]
        rw [List.take_append_of_le_length (by simp [h1]; omega)]
        rw [List.take_take]
        congr 1
        omega) hround
      refine ⟨l1, ?_, hinv1, hent1, hc1⟩
      have h16 : 16 < l.count + other.count := by omega
      have hdiv : 1 ≤ (l.count + other.count + 15) / 16 := by omega
      rw [← hl]
      simp [osd_op_buf_list_t.append, int_add, hsum, hmax, hb, ha, memcpy, malloc, h1, l0, a,
        h16, hdiv]
    | some block =>
      simp only [osd_op_buf_list_t.storage, hb] at h2
      let a := (l.count + other.count + 15) / 16 * 16
      let l0 : osd_op_buf_list_t := { l with alloc := a, buf := some (realloc junk block a) }
      have hinv0 : buf_inv l0 := by
        constructor
        · exact h1
        · simp only [l0, osd_op_buf_list_t.storage, realloc, List.length_append,
            List.length_take, List.length_replicate]
          omega
        · show l.count ≤ a
          omega
      obtain ⟨l1, hl, hinv1, hent1, hc1⟩ := hfin l0 hinv0 rfl (by
        simp only [osd_op_buf_list_t.entries, osd_op_buf_list_t.storage, hb, l0, realloc]
        rw [List.take_append_of_le_length (by simp; omega)]
        rw [List.take_take]
        congr 1
        omega) hround
      refine ⟨l1, ?_, hinv1, hent1, hc1⟩
      have hgrow1 : l.alloc < l.count + other.count := hgrow
      rw [← hl]
      simp [osd_op_buf_list_t.append, int_add, hsum, hmax, hb, l0, a, hgrow1]
  · obtain ⟨l1, hl, hinv1, hent1, hc1⟩ := hfin l ⟨h1, h2, h3⟩ rfl rfl (by omega)
    refine ⟨l1, ?_, hinv1, hent1, hc1⟩
    have hgrow1 : ¬ l.alloc < l.count + other.count := hgrow
    rw [← hl]
    simp [osd_op_buf_list_t.append, int_add, hsum, hgrow1]

theorem run_calls_spec (junk : iovec) (cs : List BufCall) :
    ∀ l : osd_op_buf_list_t, buf_inv l → valid_args cs = true →
      l.count + (seq_of_calls cs).length + 15 ≤ INT_MAX →
      ∃ l1, run_calls junk cs l = some l1 ∧ buf_inv l1
        ∧ l1.entries = l.entries ++ seq_of_calls cs
        ∧ l1.count = l.count + (seq_of_calls cs).length := by
  induction cs with
  | nil =>
    intro l hinv _ _
    exact ⟨l, rfl, hinv, by simp [seq_of_calls], by simp [seq_of_calls]⟩
  | cons c cs ih =>
    intro l hinv hvalid hmax
    cases c with
    | push_back nbuf len =>
      simp only [seq_of_calls, List.length_cons] at hmax
      obtain ⟨l1, hp, hinv1, hent1, hc1⟩ := push_back_spec junk l nbuf len hinv (by omega)
      obtain ⟨l2, hr, hinv2, hent2, hc2⟩ := ih l1 hinv1 (by simpa [valid_args] using hvalid)
        (by omega)
      refine ⟨l2, ?_, hinv2, ?_, ?_⟩
      · simp only [run_calls, hp, hr]
      · rw [hent2, hent1]
        simp [seq_of_calls]
      · simp only [seq_of_calls, List.length_cons]
        omega
    | append other =>
      simp only [valid_args, Bool.and_eq_true, decide_eq_true_eq] at hvalid
      have hlen : other.entries.length = other.count := by
        simp only [osd_op_buf_list_t.entries, List.length_take]
        omega
      simp only [seq_of_calls, List.length_append, hlen] at hmax
      obtain ⟨l1, hp, hinv1, hent1, hc1⟩ := append_spec junk l other hinv hvalid.1 (by omega)
      obtain ⟨l2, hr, hinv2, hent2, hc2⟩ := ih l1 hinv1 hvalid.2 (by omega)
      refine ⟨l2, ?_, hinv2, ?_, ?_⟩
      · simp only [run_calls, hp, hr]
      · rw [hent2, hent1]
        simp [seq_of_calls]
      · simp only [seq_of_calls, List.length_append, hlen]
        omega

theorem run_calls_append (junk : iovec) (pre post : List BufCall) :
    ∀ l : osd_op_buf_list_t,
      run_calls junk (pre ++ post) l = (run_calls junk pre l).bind (run_calls junk post) := by
  induction pre with
  | nil => intro l; rfl
  | cons c cs ih =>
    intro l
    cases c with
    | push_back nbuf len =>
      simp only [List.cons_append, run_calls]
      cases l.push_back junk nbuf len with
      | none => rfl
      | some l1 => exact ih l1
    | append other =>
      simp only [List.cons_append, run_calls]
      cases l.append junk other with
      | none => rfl
      | some l1 => exact ih l1

theorem seq_of_calls_append (pre post : List BufCall) :
    seq_of_calls (pre ++ post) = seq_of_calls pre ++ seq_of_calls post := by
  induction pre with
  | nil => rfl
  | cons c cs ih => cases c <;> simp [seq_of_calls, ih]

theorem valid_args_append (pre post : List BufCall) :
    valid_args (pre ++ post) = (valid_args pre && valid_args post) := by
  induction pre with
  | nil => simp [valid_args]
  | cons c cs ih => cases c <;> simp [valid_args, ih, Bool.and_assoc]

/-- C4: starting from an empty list, every sequence of push_back and append calls
(the arguments of append being valid lists, the total number of entries plus 15
within the range of int) succeeds, and the entries buf[0..count-1] are then the
sequence obtained by appending (b, len) for each push_back and the entries of
other for each append, in call order; the entries stored by any earlier part of the
calls are still the first entries after the later calls, whatever growth happened. -/
theorem buf_list_is_growable_sequence (junk : iovec) (pre post : List BufCall)
    (hvalid : valid_args (pre ++ post) = true)
    (hmax : (seq_of_calls (pre ++ post)).length + 15 ≤ INT_MAX) :
    ∃ l0 l : osd_op_buf_list_t,
      run_calls junk pre (osd_op_buf_list_t.init junk) = some l0
      ∧ l0.entries = seq_of_calls pre ∧ l0.count = (seq_of_calls pre).length
      ∧ run_calls junk (pre ++ post) (osd_op_buf_list_t.init junk) = some l
      ∧ l.entries = seq_of_calls (pre ++ post)
      ∧ l.count = (seq_of_calls (pre ++ post)).length
      ∧ l.entries.take l0.count = l0.entries := by
  rw [valid_args_append, Bool.and_eq_true] at hvalid
  rw [seq_of_calls_append, List.length_append] at hmax
  have hinit : (osd_op_buf_list_t.init junk).entries = [] := by
    simp [osd_op_buf_list_t.entries, osd_op_buf_list_t.init]
  have hcount : (osd_op_buf_list_t.init junk).count = 0 := rfl
  obtain ⟨l0, hr0, hinv0, hent0, hc0⟩ :=
    run_calls_spec junk pre (osd_op_buf_list_t.init junk) (buf_inv_init junk) hvalid.1
      (by rw [hcount]; omega)
  obtain ⟨l, hr, _, hent, hc⟩ :=
    run_calls_spec junk post l0 hinv0 hvalid.2 (by rw [hc0, hcount]; omega)
  rw [hinit, List.nil_append] at hent0
  rw [hcount, Nat.zero_add] at hc0
  refine ⟨l0, l, hr0, hent0, hc0, ?_, ?_, ?_, ?_⟩
  · rw [run_calls_append, hr0]
    exact hr
  · rw [hent, hent0, seq_of_calls_append]
  · rw [hc, hc0, seq_of_calls_append, List.length_append]
  · rw [hent, hc0, ← hent0, List.take_left]

/-- Witness of C4: sixteen push_back calls fill the inline array, then a push_back
promotes the storage to the heap and two append calls and a push_back grow it. -/
theorem buf_list_is_growable_sequence_witness :
    valid_args (sample_fill_calls ++ sample_grow_calls ⟨0, 0⟩) = true
    ∧ (seq_of_calls (sample_fill_calls ++ sample_grow_calls ⟨0, 0⟩)).length = 22
    ∧ (run_calls ⟨0, 0⟩ sample_fill_calls (osd_op_buf_list_t.init ⟨0, 0⟩)).map
        (fun l => (l.buf.isNone, l.alloc, l.count)) = some (true, 16, 16)
    ∧ (run_calls ⟨0, 0⟩ (sample_fill_calls ++ sample_grow_calls ⟨0, 0⟩)
        (osd_op_buf_list_t.init ⟨0, 0⟩)).map
        (fun l => (l.buf.isNone, l.alloc, l.count)) = some (false, 32, 22)
    ∧ ∃ l0 l : osd_op_buf_list_t,
        run_calls ⟨0, 0⟩ sample_fill_calls (osd_op_buf_list_t.init ⟨0, 0⟩) = some l0
        ∧ l0.entries = seq_of_calls sample_fill_calls
        ∧ l0.count = (seq_of_calls sample_fill_calls).length
        ∧ run_calls ⟨0, 0⟩ (sample_fill_calls ++ sample_grow_calls ⟨0, 0⟩)
            (osd_op_buf_list_t.init ⟨0, 0⟩) = some l
        ∧ l.entries = seq_of_calls (sample_fill_calls ++ sample_grow_calls ⟨0, 0⟩)
        ∧ l.count = (seq_of_calls (sample_fill_calls ++ sample_grow_calls ⟨0, 0⟩)).length
        ∧ l.entries.take l0.count = l0.entries :=
  ⟨by decide, by decide, by decide, by decide,
   buf_list_is_growable_sequence ⟨0, 0⟩ sample_fill_calls (sample_grow_calls ⟨0, 0⟩)
     (by decide) (by decide)⟩

/-! ## Theorems about vitastor_parse_filename -/

theorem next_tok_closed (delim : Char) (rest : CStr) :
    ∀ k : CStr, closed_tok delim k = true →
      qemu_rbd_next_tok delim (k ++ delim :: rest) = (k, some rest)
  | [], _ => by
    cases rest <;> simp [qemu_rbd_next_tok]
  | [c], h => by
    simp only [closed_tok, Bool.and_eq_true, decide_eq_true_eq] at h
    have h0 := next_tok_closed delim rest [] rfl
    simp only [List.nil_append] at h0
    simp [qemu_rbd_next_tok, h.1, h.2, h0]
  | c :: d :: k, h => by
    simp only [closed_tok, Bool.and_eq_true, decide_eq_true_eq] at h
    by_cases hc : c = '\\'
    · simp only [hc, if_true] at h
      have h0 := next_tok_closed delim rest k h.2
      have hne : ¬ ('\\' = delim) := by
        intro e
        exact h.1 e
      simp [qemu_rbd_next_tok, hc, hne, h0]
    · simp only [hc, if_false] at h
      have h0 := next_tok_closed delim rest (d :: k) h.2
      simp only [List.cons_append] at h0
      simp [qemu_rbd_next_tok, hc, h.1, h0]

theorem next_tok_open (delim : Char) :
    ∀ v : CStr, open_tok delim v = true → qemu_rbd_next_tok delim v = (v, none)
  | [], _ => by simp [qemu_rbd_next_tok]
  | [c], h => by
    simp only [open_tok, decide_eq_true_eq] at h
    simp [qemu_rbd_next_tok, h]
  | c :: d :: k, h => by
    simp only [open_tok, Bool.and_eq_true, decide_eq_true_eq] at h
    by_cases hc : c = '\\'
    · simp only [hc, if_true] at h
      have h0 := next_tok_open delim k h.2
      have hne : ¬ ('\\' = delim) := by
        intro e
        exact h.1 e
      simp [qemu_rbd_next_tok, hc, hne, h0]
    · simp only [hc, if_false] at h
      have h0 := next_tok_open delim (d :: k) h.2
      simp [qemu_rbd_next_tok, hc, h.1, h0]

theorem parse_pairs_step (fuel : Nat) (k v rest : CStr) (p : Option CStr) (st : ParseState)
    (o : QObject) (hk : closed_tok '=' k = true)
    (hv : qemu_rbd_next_tok ':' rest = (v, p))
    (ho : pair_object (qemu_rbd_unescape k) (qemu_rbd_unescape v) = some o) :
    parse_pairs (fuel + 1) (some (k ++ '=' :: rest)) st
      = parse_pairs fuel p { st with options := qdict_put st.options (qemu_rbd_unescape k) o } := by
  have hn := next_tok_closed '=' rest k hk
  simp only [parse_pairs, hn, hv]
  by_cases hint : qemu_rbd_unescape k = k_inode ∨ qemu_rbd_unescape k = k_pool
      ∨ qemu_rbd_unescape k = k_size
  · simp only [pair_object, hint, if_true, Option.map_eq_some'] at ho
    obtain ⟨n, hp, hq⟩ := ho
    simp only [hint, if_true, hp, qdict_put_int, hq]
  · simp only [pair_object, hint, if_false, Option.some.injEq] at ho
    simp only [hint, if_false, qdict_put_str, ho]

theorem parse_pairs_render :
    ∀ (ps : List (CStr × CStr)) (fuel : Nat) (st : ParseState),
      wf_pairs ps = true → legal_pairs ps = true → ps.length < fuel →
      parse_pairs fuel (some (render_pairs ps)) st
        = Outcome.ret ({ st with options := put_pairs st.options ps }, false)
  | [], _, _, hwf, _, _ => by simp [wf_pairs] at hwf
  | [(k, v)], fuel, st, hwf, hlegal, hfuel => by
    simp only [wf_pairs, Bool.and_eq_true] at hwf
    simp only [legal_pairs, List.all_cons, List.all_nil, Bool.and_true,
      Option.isSome_iff_exists] at hlegal
    obtain ⟨o, ho⟩ := hlegal
    obtain ⟨f, rfl⟩ : ∃ f, fuel = f + 2 := ⟨fuel - 2, by simp at hfuel; omega⟩
    rw [render_pairs, parse_pairs_step (f + 1) k v v none st o hwf.1 (next_tok_open ':' v hwf.2) ho]
    simp [parse_pairs, put_pairs, ho]
  | (k, v) :: q :: ps, fuel, st, hwf, hlegal, hfuel => by
    simp only [wf_pairs, Bool.and_eq_true] at hwf
    have hl := hlegal
    simp only [legal_pairs, List.all_cons, Bool.and_eq_true, Option.isSome_iff_exists] at hl
    obtain ⟨⟨o, ho⟩, _⟩ := hl
    have hlegal2 : legal_pairs (q :: ps) = true := by
      simp only [legal_pairs, List.all_cons, Bool.and_eq_true] at hlegal ⊢
      exact hlegal.2
    obtain ⟨f, rfl⟩ : ∃ f, fuel = f + 1 := ⟨fuel - 1, by simp at hfuel; omega⟩
    rw [render_pairs, parse_pairs_step f k v _ (some (render_pairs (q :: ps))) st o hwf.1.1
      (next_tok_closed ':' _ v hwf.1.2) ho]
    rw [parse_pairs_render (q :: ps) f _ hwf.2 hlegal2 (by simp at hfuel ⊢; omega)]
    simp [put_pairs, ho]

theorem render_pairs_length : ∀ ps : List (CStr × CStr), ps.length ≤ (render_pairs ps).length
  | [] => by simp
  | [(k, v)] => by simp [render_pairs]; omega
  | (k, v) :: q :: ps => by
    have h := render_pairs_length (q :: ps)
    simp only [render_pairs, List.length_cons, List.length_append] at h ⊢
    omega

theorem strstart_append (val rest : CStr) : strstart (val ++ rest) val = some rest := by
  induction val with
  | nil => cases rest <;> simp [strstart]
  | cons v vs ih => simp [strstart, ih]

theorem strstart_eq_none (val : CStr) : ∀ str : CStr, ¬ val <+: str → strstart str val = none := by
  induction val with
  | nil => intro str h; exact absurd List.nil_prefix h
  | cons v vs ih =>
    intro str h
    cases str with
    | nil => simp [strstart]
    | cons c cs =>
      by_cases hc : c = v
      · subst hc
        simp only [strstart, if_true]
        apply ih
        intro hp
        exact h ((List.prefix_cons_inj c).mpr hp)
      · simp [strstart, hc]

theorem next_tok_rest_length (delim : Char) :
    ∀ (s p : CStr), (qemu_rbd_next_tok delim s).2 = some p → p.length < s.length
  | [], p, h => by simp [qemu_rbd_next_tok] at h
  | [c], p, h => by
    by_cases hc : c = delim
    · simp [qemu_rbd_next_tok, hc] at h
      simp [← h]
    · simp [qemu_rbd_next_tok, hc] at h
  | c :: d :: rest, p, h => by
    by_cases hc : c = delim
    · simp [qemu_rbd_next_tok, hc] at h
      simp [← h]
    · by_cases hb : c = '\\'
      · have hd : ¬ ('\\' = delim) := fun e => hc (hb.trans e)
        simp only [qemu_rbd_next_tok, hb, hd, if_true, if_false] at h
        have := next_tok_rest_length delim rest p h
        simp only [List.length_cons]
        omega
      · simp only [qemu_rbd_next_tok, hc, hb, if_false] at h
        have := next_tok_rest_length delim (d :: rest) p h
        simp only [List.length_cons] at this ⊢
        omega

theorem parse_pairs_fuel : ∀ (fuel : Nat) (p : Option CStr) (st : ParseState),
    rest_measure p ≤ fuel + 1 → parse_pairs (fuel + 1) p st ≠ Outcome.fault Fault.fuel := by
  intro fuel
  induction fuel with
  | zero =>
    intro p st h
    cases p with
    | none => simp [parse_pairs]
    | some s =>
      simp only [rest_measure] at h
      have hs : s = [] := List.eq_nil_of_length_eq_zero (by omega)
      subst hs
      cases he : st.errp <;> simp [parse_pairs, qemu_rbd_next_tok, error_setg, he]
  | succ fuel ih =>
    intro p st h
    cases p with
    | none => simp [parse_pairs]
    | some s =>
      simp only [rest_measure] at h
      simp only [parse_pairs]
      cases ht : (qemu_rbd_next_tok '=' s).2 with
      | none =>
        cases he : st.errp <;> simp [error_setg]
      | some p1 =>
        have h1 := next_tok_rest_length '=' s p1 ht
        have h2 : rest_measure (qemu_rbd_next_tok ':' p1).2 ≤ fuel + 1 := by
          cases hv : (qemu_rbd_next_tok ':' p1).2 with
          | none => simp only [rest_measure]; omega
          | some p2 =>
            have := next_tok_rest_length ':' p1 p2 hv
            simp only [rest_measure]
            omega
        simp only []
        split
        · split
          · cases he : st.errp <;> simp [error_setg]
          · exact ih _ _ h2
        · exact ih _ _ h2

theorem check_required_no_fuel_fault (POOL_ID_BITS : Nat) (st : ParseState) :
    check_required POOL_ID_BITS st ≠ Outcome.fault Fault.fuel := by
  unfold check_required
  cases he : st.errp <;> simp only [error_setg] <;> repeat' split
  all_goals simp

/-- The loop bound of the model is never reached: the call always ends as the C
function does, by a return, a failed assertion or the NULL dereference. -/
theorem parse_filename_no_fuel_fault (POOL_ID_BITS : Nat) (filename : CStr) (options : QDict)
    (errp : Option String) :
    vitastor_parse_filename POOL_ID_BITS filename options errp ≠ Outcome.fault Fault.fuel := by
  unfold vitastor_parse_filename
  cases hs : strstart filename vitastor_scheme with
  | none => cases errp <;> simp [error_setg]
  | some start =>
    simp only []
    have hf := parse_pairs_fuel start.length (some start) { options := options, errp := errp }
      (by simp [rest_measure])
    cases hp : parse_pairs (start.length + 1) (some start) { options := options, errp := errp } with
    | fault f =>
      simp only []
      intro h
      rw [hp] at hf
      have hff : f = Fault.fuel := by
        injection h
      exact hf (by rw [hff])
    | ret r =>
      obtain ⟨st, b⟩ := r
      cases b
      · exact check_required_no_fuel_fault POOL_ID_BITS st
      · simp

theorem put_pairs_append (d : QDict) (ps qs : List (CStr × CStr)) :
    put_pairs d (ps ++ qs) = put_pairs (put_pairs d ps) qs := by
  induction ps generalizing d with
  | nil => rfl
  | cons p ps ih =>
    obtain ⟨k, v⟩ := p
    simp only [List.cons_append, put_pairs]
    cases pair_object (qemu_rbd_unescape k) (qemu_rbd_unescape v) <;> simp [ih]

theorem parse_filename_eq_check (POOL_ID_BITS : Nat) (ps : List (CStr × CStr)) (options : QDict)
    (errp : Option String) (hwf : wf_pairs ps = true) (hlegal : legal_pairs ps = true) :
    vitastor_parse_filename POOL_ID_BITS (vitastor_scheme ++ render_pairs ps) options errp
      = check_required POOL_ID_BITS { options := put_pairs options ps, errp := errp } := by
  have hlen := render_pairs_length ps
  simp only [vitastor_parse_filename, strstart_append]
  rw [parse_pairs_render ps _ _ hwf hlegal (by omega)]

/-- The signed shift of the check sees exactly the top POOL_ID_BITS bits of the
unsigned value that was stored. -/
theorem top_bits_shift (n POOL_ID_BITS : Nat) (hn : n < 2 ^ 64) (h1 : 1 ≤ POOL_ID_BITS)
    (h2 : POOL_ID_BITS ≤ 64) :
    to_int64 n >>> (64 - POOL_ID_BITS) = 0 ↔ n / 2 ^ (64 - POOL_ID_BITS) = 0 := by
  rw [Int.shiftRight_eq_div_pow]
  unfold to_int64
  rw [Nat.mod_eq_of_lt hn]
  have hk : 2 ^ (64 - POOL_ID_BITS) ≤ 2 ^ 63 := Nat.pow_le_pow_right (by norm_num) (by omega)
  have hpos : 0 < 2 ^ (64 - POOL_ID_BITS) := Nat.pow_pos (by norm_num)
  by_cases h : n < 2 ^ 63
  · rw [if_pos h]
    norm_cast
  · rw [if_neg h]
    have hneg : ((n : Int) - 2 ^ 64) / ((2 ^ (64 - POOL_ID_BITS) : Nat) : Int) < 0 := by
      apply Int.ediv_neg'
      · have : (n : Int) < 2 ^ 64 := by exact_mod_cast hn
        omega
      · exact_mod_cast hpos
    have hge : 1 ≤ n / 2 ^ (64 - POOL_ID_BITS) :=
      (Nat.one_le_div_iff hpos).mpr (by omega)
    constructor
    · intro e; omega
    · intro e; omega

/-- For a well-formed filename whose integers are legal and an empty dictionary, the
outcome of the call in terms of the stored options: the first failing check among
inode, pool and size is reported; with those three passed, the call returns
without error when etcd_host is stored and ends in the NULL dereference when it
is not. -/
theorem required_options_report (POOL_ID_BITS : Nat) (ps : List (CStr × CStr))
    (hwf : wf_pairs ps = true) (hlegal : legal_pairs ps = true) :
    vitastor_parse_filename POOL_ID_BITS (vitastor_scheme ++ render_pairs ps) [] none
      = if qdict_get_try_int (put_pairs [] ps) k_inode 0 = 0 then
          Outcome.ret { options := put_pairs [] ps, errp := some "inode is missing" }
        else if qdict_get_try_int (put_pairs [] ps) k_inode 0 >>> (64 - POOL_ID_BITS) = 0
            ∧ qdict_get_try_int (put_pairs [] ps) k_pool 0 = 0 then
          Outcome.ret { options := put_pairs [] ps, errp := some "pool number is missing" }
        else if qdict_get_try_int (put_pairs [] ps) k_size 0 = 0 then
          Outcome.ret { options := put_pairs [] ps, errp := some "size is missing" }
        else if (qdict_get_str (put_pairs [] ps) k_etcd_host).isSome then
          Outcome.ret { options := put_pairs [] ps, errp := none }
        else Outcome.fault Fault.null_deref := by
  rw [parse_filename_eq_check POOL_ID_BITS ps [] none hwf hlegal]
  unfold check_required
  simp only [error_setg]
  split
  · rfl
  · split
    · rfl
    · split
      · rfl
      · cases h : qdict_get_str (put_pairs [] ps) k_etcd_host <;> simp

theorem parse_uint_full_lt (s : CStr) (n : Nat) (h : parse_uint_full s = some n) :
    n < 2 ^ 64 := by
  unfold parse_uint_full at h
  split at h
  · exact absurd h (by simp)
  · simp only [] at h
    split at h
    · exact absurd h (by simp)
    · split at h
      · split at h
        · simp only [Option.some.injEq] at h
          omega
        · exact absurd h (by simp)
      · exact absurd h (by simp)

theorem to_int64_eq_zero (n : Nat) (hn : n < 2 ^ 64) : to_int64 n = 0 ↔ n = 0 := by
  unfold to_int64
  rw [Nat.mod_eq_of_lt hn]
  split <;> omega

/-- The lookups that decide the checks of the required options on the dictionary of
the documented example. -/
theorem documented_example_lookups :
    qdict_get_try_int (put_pairs [] documented_example_pairs) k_inode 0 = 1
    ∧ qdict_get_try_int (put_pairs [] documented_example_pairs) k_pool 0 = 1
    ∧ qdict_get_try_int (put_pairs [] documented_example_pairs) k_size 0 = 0 := by
  decide

/-- C5, as stated, fails: on the documented example filename and an empty dictionary
the call reports the error "size is missing". -/
theorem documented_example_is_rejected :
    vitastor_parse_filename 16 "vitastor:etcd_host=127.0.0.1:inode=1:pool=1".toList [] none
      = Outcome.ret
          { options := [(k_etcd_host, QObject.qstring "127.0.0.1".toList),
                        (k_inode, QObject.qnum 1), (k_pool, QObject.qnum 1)],
            errp := some "size is missing" } := by
  decide

/-- C5, amended: on the documented example filename
vitastor:etcd_host=127.0.0.1:inode=1:pool=1 and an empty dictionary the call leaves
options holding etcd_host = "127.0.0.1", inode = 1 and pool = 1 and reports the error
"size is missing"; with a pair size=v added, v a legal non-zero unsigned integer, it
reports no error and options hold these three and the size. -/
theorem documented_example_needs_size (POOL_ID_BITS : Nat) :
    vitastor_parse_filename POOL_ID_BITS
        "vitastor:etcd_host=127.0.0.1:inode=1:pool=1".toList [] none
      = Outcome.ret
          { options := [(k_etcd_host, QObject.qstring "127.0.0.1".toList),
                        (k_inode, QObject.qnum 1), (k_pool, QObject.qnum 1)],
            errp := some "size is missing" }
    ∧ ∀ (v : CStr) (n : Nat), open_tok ':' v = true →
        parse_uint_full (qemu_rbd_unescape v) = some n → n ≠ 0 →
        vitastor_parse_filename POOL_ID_BITS
            ("vitastor:etcd_host=127.0.0.1:inode=1:pool=1:size=".toList ++ v) [] none
          = Outcome.ret
              { options := [(k_etcd_host, QObject.qstring "127.0.0.1".toList),
                            (k_inode, QObject.qnum 1), (k_pool, QObject.qnum 1),
                            (k_size, QObject.qnum (to_int64 n))],
                errp := none } := by
  constructor
  · have hname : "vitastor:etcd_host=127.0.0.1:inode=1:pool=1".toList
        = vitastor_scheme ++ render_pairs documented_example_pairs := by decide
    obtain ⟨h1, h2, h3⟩ := documented_example_lookups
    rw [hname, parse_filename_eq_check POOL_ID_BITS documented_example_pairs [] none
      (by decide) (by decide)]
    have hd : put_pairs [] documented_example_pairs
        = [(k_etcd_host, QObject.qstring "127.0.0.1".toList),
           (k_inode, QObject.qnum 1), (k_pool, QObject.qnum 1)] := by decide
    simp only [check_required, h1, h2, h3, error_setg]
    simp [hd]
  · intro v n hv hparse hn
    have hname : "vitastor:etcd_host=127.0.0.1:inode=1:pool=1:size=".toList ++ v
        = vitastor_scheme ++ render_pairs (documented_example_pairs ++ [(k_size, v)]) := rfl
    have hsize : qemu_rbd_unescape k_size = k_size := by decide
    have hobj : pair_object (qemu_rbd_unescape k_size) (qemu_rbd_unescape v)
        = some (QObject.qnum (to_int64 n)) := by
      rw [hsize]
      simp [pair_object, hparse]
    have hwf : wf_pairs (documented_example_pairs ++ [(k_size, v)]) = true := by
      have hred : wf_pairs (documented_example_pairs ++ [(k_size, v)]) = open_tok ':' v := rfl
      rw [hred, hv]
    have hlegal : legal_pairs (documented_example_pairs ++ [(k_size, v)]) = true := by
      have hred : legal_pairs (documented_example_pairs ++ [(k_size, v)])
          = ((pair_object (qemu_rbd_unescape k_size) (qemu_rbd_unescape v)).isSome && true) := rfl
      rw [hred, hobj]
      rfl
    have hd : put_pairs [] (documented_example_pairs ++ [(k_size, v)])
        = [(k_etcd_host, QObject.qstring "127.0.0.1".toList),
           (k_inode, QObject.qnum 1), (k_pool, QObject.qnum 1),
           (k_size, QObject.qnum (to_int64 n))] := by
      have h0 : put_pairs [] documented_example_pairs
          = [(k_etcd_host, QObject.qstring "127.0.0.1".toList),
             (k_inode, QObject.qnum 1), (k_pool, QObject.qnum 1)] := by decide
      rw [put_pairs_append, h0]
      simp only [put_pairs, hobj]
      rw [hsize]
      rfl
    have hne : to_int64 n ≠ 0 := fun e =>
      hn ((to_int64_eq_zero n (parse_uint_full_lt _ n hparse)).mp e)
    have g1 : qdict_get_try_int [(k_etcd_host, QObject.qstring "127.0.0.1".toList),
        (k_inode, QObject.qnum 1), (k_pool, QObject.qnum 1),
        (k_size, QObject.qnum (to_int64 n))] k_inode 0 = 1 := rfl
    have g2 : qdict_get_try_int [(k_etcd_host, QObject.qstring "127.0.0.1".toList),
        (k_inode, QObject.qnum 1), (k_pool, QObject.qnum 1),
        (k_size, QObject.qnum (to_int64 n))] k_pool 0 = 1 := rfl
    have g3 : qdict_get_try_int [(k_etcd_host, QObject.qstring "127.0.0.1".toList),
        (k_inode, QObject.qnum 1), (k_pool, QObject.qnum 1),
        (k_size, QObject.qnum (to_int64 n))] k_size 0 = to_int64 n := rfl
    have g4 : qdict_get_str [(k_etcd_host, QObject.qstring "127.0.0.1".toList),
        (k_inode, QObject.qnum 1), (k_pool, QObject.qnum 1),
        (k_size, QObject.qnum (to_int64 n))] k_etcd_host
          = some "127.0.0.1".toList := rfl
    rw [hname, parse_filename_eq_check POOL_ID_BITS _ [] none hwf hlegal, hd]
    unfold check_required
    simp only [g1, g2, g3, g4]
    rw [if_neg (by decide : ¬ ((1 : Int) = 0)),
      if_neg (fun h : (1 : Int) >>> (64 - POOL_ID_BITS) = 0 ∧ (1 : Int) = 0 =>
        absurd h.2 (by decide)),
      if_neg hne]

/-- Witness of C5 (amended): the example with size=1073741824 added. -/
theorem documented_example_needs_size_witness :
    open_tok ':' "1073741824".toList = true
    ∧ parse_uint_full (qemu_rbd_unescape "1073741824".toList) = some 1073741824
    ∧ vitastor_parse_filename 16
          ("vitastor:etcd_host=127.0.0.1:inode=1:pool=1:size=".toList ++ "1073741824".toList)
          [] none
        = Outcome.ret
            { options := [(k_etcd_host, QObject.qstring "127.0.0.1".toList),
                          (k_inode, QObject.qnum 1), (k_pool, QObject.qnum 1),
                          (k_size, QObject.qnum (to_int64 1073741824))],
              errp := none } :=
  ⟨by decide, by decide,
   (documented_example_needs_size 16).2 "1073741824".toList 1073741824 (by decide) (by decide)
     (by decide)⟩

/-- C7: for every filename that does not start with vitastor: the call reports the
error "File name must start with 'vitastor:'" and leaves the options unchanged. -/
theorem parse_filename_rejects_other_scheme (POOL_ID_BITS : Nat) (filename : CStr)
    (options : QDict) (h : ¬ vitastor_scheme <+: filename) :
    vitastor_parse_filename POOL_ID_BITS filename options none
      = Outcome.ret { options := options, errp := some "File name must start with 'vitastor:'" } := by
  simp [vitastor_parse_filename, strstart_eq_none vitastor_scheme filename h, error_setg]

/-- Witness of C7: the name vitastor without the colon, on a dictionary that already
holds an entry. -/
theorem parse_filename_rejects_other_scheme_witness :
    (¬ vitastor_scheme <+: "vitastor".toList)
    ∧ vitastor_parse_filename 16 "vitastor".toList [(k_pool, QObject.qnum 1)] none
        = Outcome.ret { options := [(k_pool, QObject.qnum 1)],
                        errp := some "File name must start with 'vitastor:'" } :=
  ⟨by decide,
   parse_filename_rejects_other_scheme 16 "vitastor".toList [(k_pool, QObject.qnum 1)]
     (by decide)⟩

/-- The lookups that decide the checks of the required options when only etcd_host
is missing. -/
theorem no_host_lookups :
    qdict_get_try_int (put_pairs [] no_host_pairs) k_inode 0 = 1
    ∧ qdict_get_try_int (put_pairs [] no_host_pairs) k_pool 0 = 1
    ∧ qdict_get_try_int (put_pairs [] no_host_pairs) k_size 0 = 1
    ∧ qdict_get_str (put_pairs [] no_host_pairs) k_etcd_host = none := by
  decide

/-- C8: on vitastor:inode=1:pool=1:size=1 (inode, pool and size given, etcd_host
absent) and an empty dictionary the call does not report "etcd_host is missing": it
ends in qdict_get_str on the absent key. -/
theorem missing_etcd_host_not_reported (POOL_ID_BITS : Nat) :
    vitastor_parse_filename POOL_ID_BITS "vitastor:inode=1:pool=1:size=1".toList [] none
      = Outcome.fault Fault.null_deref := by
  have hname : "vitastor:inode=1:pool=1:size=1".toList
      = vitastor_scheme ++ render_pairs no_host_pairs := by decide
  obtain ⟨h1, h2, h3, h4⟩ := no_host_lookups
  rw [hname, parse_filename_eq_check POOL_ID_BITS no_host_pairs [] none (by decide) (by decide)]
  simp [check_required, h1, h2, h3, h4]

end Vitastor
